import Mathlib

/-!
Verification of the dual-venue arbitrage detection engine.

Shallow embedding of the TypeScript sources:
* `src/types/exchange.ts` — data model (ticker prices, opportunities, pairings);
* `src/exchanges/mexc-futures.ts` — symbol conversion `toCommonFormat` / `toMexcFormat`;
* `src/arbitrage-detector.ts` — `onPriceUpdate`, `checkArbitrage`, `handleNewOpportunity`;
* `src/utils/websocket-monitor.ts` — `WebSocketMonitor`.

JavaScript numbers are modelled as rationals (`ℚ`), timestamps as integers.
The position ledger (`TradeExecutor`) is an external collaborator; calls into it
are recorded symbolically as a list of `LedgerEffect`s, and its two queries used
by the engine (`canOpenNewPosition`, the price getter) are passed as parameters.
-/

/-- Venue identifier, from `ExchangeName` in `src/types/exchange.ts`. -/
inductive ExchangeName
  | binance
  | mexc
deriving DecidableEq, Repr

/-- A venue price tick, from `TickerPrice` in `src/types/exchange.ts`. -/
structure TickerPrice where
  symbol : String
  price : ℚ
  bid : ℚ
  ask : ℚ
  timestamp : ℤ
  exchange : ExchangeName
deriving DecidableEq, Repr

/-- An arbitrage opportunity, from `ArbitrageOpportunity` in `src/types/exchange.ts`. -/
structure ArbitrageOpportunity where
  symbol : String
  buyExchange : ExchangeName
  sellExchange : ExchangeName
  buyPrice : ℚ
  sellPrice : ℚ
  spreadPercent : ℚ
  profitPercent : ℚ
  timestamp : ℤ
deriving DecidableEq, Repr

/-- Per-venue fee configuration, from `FeeConfig` in `src/types/config.ts`
(only the `taker` field is read by the detector). -/
structure FeeConfig where
  taker : ℚ
deriving DecidableEq, Repr

/-- The `arbitrage` section of `Config` (fields read by the detector). -/
structure ArbitrageConfig where
  minSpreadPercent : ℚ
deriving DecidableEq, Repr

/-- The `notifications` section of `Config` (fields read by the detector). -/
structure NotificationConfig where
  minSpreadToNotify : ℚ
deriving DecidableEq, Repr

/-- The `slippage` section of `Config`. -/
structure SlippageConfig where
  percent : ℚ
deriving DecidableEq, Repr

/-- The `trading` section of `Config` (fields read by the detector). -/
structure TradingConfig where
  enabled : Bool
  closeOnNewOpportunity : Bool
deriving DecidableEq, Repr

/-- The per-venue fee table `config.fees` from `src/types/config.ts`. -/
structure Fees where
  binance : FeeConfig
  mexc : FeeConfig
deriving DecidableEq, Repr

/-- Indexing `config.fees[exchange]` from the source. -/
def Fees.forExchange (f : Fees) : ExchangeName → FeeConfig
  | .binance => f.binance
  | .mexc => f.mexc

/-- The application configuration, from `Config` in `src/types/config.ts`,
restricted to the fields the detector reads. -/
structure Config where
  arbitrage : ArbitrageConfig
  notifications : NotificationConfig
  fees : Fees
  slippage : SlippageConfig
  trading : TradingConfig
deriving DecidableEq, Repr

/-! ### Symbol conversion (`src/exchanges/mexc-futures.ts`)

`toCommonFormat` is `mexcSymbol.replace('_', '')` and `toMexcFormat` is
`binanceSymbol.replace('USDT', '_USDT')`.  JavaScript
`String.prototype.replace` with a string pattern replaces the first
occurrence only (and leaves the string unchanged when the pattern does not
occur); `replaceFirst` models exactly that on character lists. -/

/-- First-occurrence string replacement, the semantics of JavaScript
`s.replace(pat, rep)` for plain string patterns and replacements. -/
def replaceFirst (pat rep : List Char) : List Char → List Char
  | [] => if pat <+: ([] : List Char) then rep ++ (([] : List Char).drop pat.length) else []
  | c :: rest =>
    if pat <+: (c :: rest) then rep ++ ((c :: rest).drop pat.length)
    else c :: replaceFirst pat rep rest

/-- The character list of `"USDT"`. -/
def usdtL : List Char := ['U', 'S', 'D', 'T']

/-- Model of `MexcFutures.toCommonFormat`: `mexcSymbol.replace('_', '')`
(MEXC `BTC_USDT` -> Binance `BTCUSDT`). -/
def toCommonFormat (mexcSymbol : String) : String :=
  ⟨replaceFirst ['_'] [] mexcSymbol.data⟩

/-- Model of `MexcFutures.toMexcFormat`: `binanceSymbol.replace('USDT', '_USDT')`
(Binance `BTCUSDT` -> MEXC `BTC_USDT`). -/
def toMexcFormat (binanceSymbol : String) : String :=
  ⟨replaceFirst usdtL ('_' :: usdtL) binanceSymbol.data⟩

/-! ### Opportunity detection (`src/arbitrage-detector.ts`, `checkArbitrage`) -/

/-- The tail of `checkArbitrage` after the buy/sell direction has been fixed:
the gross-spread filter against `config.arbitrage.minSpreadPercent`, the cost
model (taker fees plus slippage inflating the buy price and deflating the sell
price), and construction of the `ArbitrageOpportunity`. -/
def mkOpportunity (cfg : Config) (symbol : String) (buyExchange sellExchange : ExchangeName)
    (buyPrice sellPrice : ℚ) (now : ℤ) : Option ArbitrageOpportunity :=
  let spreadPercent := (sellPrice - buyPrice) / buyPrice * 100
  if spreadPercent < cfg.arbitrage.minSpreadPercent then none
  else
    let buyFee := (cfg.fees.forExchange buyExchange).taker / 100
    let sellFee := (cfg.fees.forExchange sellExchange).taker / 100
    let slippage := cfg.slippage.percent / 100
    let buyPriceWithFeeAndSlippage := buyPrice * (1 + buyFee + slippage)
    let sellPriceWithFeeAndSlippage := sellPrice * (1 - sellFee - slippage)
    let profitPercent :=
      (sellPriceWithFeeAndSlippage - buyPriceWithFeeAndSlippage) / buyPriceWithFeeAndSlippage * 100
    some {
      symbol := symbol
      buyExchange := buyExchange
      sellExchange := sellExchange
      buyPrice := buyPrice
      sellPrice := sellPrice
      spreadPercent := spreadPercent
      profitPercent := profitPercent
      timestamp := now }

/-- Model of `ArbitrageDetector.checkArbitrage`: picks the profitable direction
(`price1.ask < price2.bid` or `price2.ask < price1.bid`), otherwise returns
without an opportunity; the emitted opportunity (if any) is the value returned.
The side calls (`handleNewOpportunity`, `updatePositionSpread`) are modelled
separately. -/
def checkArbitrage (cfg : Config) (price1 price2 : TickerPrice) (symbol : String)
    (now : ℤ) : Option ArbitrageOpportunity :=
  if price1.ask < price2.bid then
    mkOpportunity cfg symbol price1.exchange price2.exchange price1.ask price2.bid now
  else if price2.ask < price1.bid then
    mkOpportunity cfg symbol price2.exchange price1.exchange price2.ask price1.bid now
  else
    none

/-! ### Slot decision engine (`src/arbitrage-detector.ts`, `handleNewOpportunity`)

The position ledger (`TradeExecutor`) lives outside the detector; the engine's
calls into it (`openPositionPair`, `closePositionManually`,
`recordSkippedOpportunity`) are recorded in order as `LedgerEffect`s, and the
ledger queries it consumes (`canOpenNewPosition()`, `getCurrentPrices`) are
parameters of the model. -/

/-- One leg of a pairing, from `Position` in `src/types/exchange.ts`
(fields read by `handleNewOpportunity`). -/
structure Position where
  exchange : ExchangeName
  entryPrice : ℚ
deriving DecidableEq, Repr

/-- An open pairing, from `PositionPair` in `src/types/exchange.ts`
(fields read by `handleNewOpportunity`). -/
structure PositionPair where
  symbol : String
  longPosition : Position
  shortPosition : Position
deriving DecidableEq, Repr

/-- The buy/sell price record returned by
`ArbitrageDetector.getCurrentPrices`. -/
structure CurrentPrices where
  buyPrice : ℚ
  sellPrice : ℚ
deriving DecidableEq, Repr

/-- Skip reasons, from `SkipReason` in `src/types/exchange.ts`. -/
inductive SkipReason
  | INSUFFICIENT_BALANCE
  | POSITION_NOT_PROFITABLE
  | NO_FREE_SLOTS
  | SYMBOL_ALREADY_OPEN
  | PROFIT_BELOW_THRESHOLD
  | SPREAD_CLOSED
  | LIQUIDITY_LOW
deriving DecidableEq, Repr

/-- A call from the engine into the ledger / telemetry sink, in program order. -/
inductive LedgerEffect
  | openPositionPair (opportunity : ArbitrageOpportunity)
  | closePositionManually (pairId : String) (exitBuyPrice exitSellPrice : ℚ)
  | recordSkippedOpportunity (opportunity : ArbitrageOpportunity) (reason : SkipReason)
      (currentPositionProfit : Option ℚ)
deriving DecidableEq, Repr

/-- Whether an effect mutates the ledger (opens or closes a pairing). -/
def LedgerEffect.isLedgerMutation : LedgerEffect → Bool
  | .openPositionPair _ => true
  | .closePositionManually _ _ _ => true
  | .recordSkippedOpportunity _ _ _ => false

/-- The skip reasons recorded in a run of the engine. -/
def skipReasons (effects : List LedgerEffect) : List SkipReason :=
  effects.filterMap fun e =>
    match e with
    | .recordSkippedOpportunity _ reason _ => some reason
    | _ => none

/-- The recomputed cost-adjusted current profit of an open pairing, from the
body of `handleNewOpportunity` (lines 356–377 of `src/arbitrage-detector.ts`):
per-leg entry/exit prices adjusted by taker fee plus slippage, long and short
P&L percentages, averaged. -/
def currentAvgPnl (cfg : Config) (pair : PositionPair) (currentPositionPrices : CurrentPrices) : ℚ :=
  let longExchange := pair.longPosition.exchange
  let shortExchange := pair.shortPosition.exchange
  let longFee := (cfg.fees.forExchange longExchange).taker / 100
  let shortFee := (cfg.fees.forExchange shortExchange).taker / 100
  let slippage := cfg.slippage.percent / 100
  let longEntryPrice := pair.longPosition.entryPrice * (1 + longFee + slippage)
  let longExitPrice := currentPositionPrices.buyPrice * (1 - longFee - slippage)
  let longPnlPercent := (longExitPrice - longEntryPrice) / longEntryPrice * 100
  let shortEntryPrice := pair.shortPosition.entryPrice * (1 - shortFee - slippage)
  let shortExitPrice := currentPositionPrices.sellPrice * (1 + shortFee + slippage)
  let shortPnlPercent := (shortEntryPrice - shortExitPrice) / shortEntryPrice * 100
  (longPnlPercent + shortPnlPercent) / 2

/-- The replacement loop of `handleNewOpportunity` (the `for` over
`openPositions.entries()` when slots are full and smart close is enabled),
ending in the `NO_FREE_SLOTS` skip when no pairing triggers a return. -/
def replacementLoop (cfg : Config) (getPrices : String → Option CurrentPrices)
    (opportunity : ArbitrageOpportunity) : List (String × PositionPair) → List LedgerEffect
  | [] => [.recordSkippedOpportunity opportunity .NO_FREE_SLOTS none]
  | (pairId, pair) :: rest =>
    match getPrices pair.symbol with
    | none => replacementLoop cfg getPrices opportunity rest
    | some currentPositionPrices =>
      let avgPnl := currentAvgPnl cfg pair currentPositionPrices
      if cfg.notifications.minSpreadToNotify ≤ avgPnl then
        if avgPnl < opportunity.profitPercent then
          [.closePositionManually pairId currentPositionPrices.buyPrice
              currentPositionPrices.sellPrice,
            .openPositionPair opportunity]
        else replacementLoop cfg getPrices opportunity rest
      else
        [.recordSkippedOpportunity opportunity .POSITION_NOT_PROFITABLE (some avgPnl)]

/-- The first open pairing whose current prices the price getter can serve,
together with those prices — the first pairing the replacement loop actually
evaluates (pairings with unavailable prices are skipped with a warning). -/
def firstPricedPairing (getPrices : String → Option CurrentPrices) :
    List (String × PositionPair) → Option (PositionPair × CurrentPrices)
  | [] => none
  | (_, pair) :: rest =>
    match getPrices pair.symbol with
    | none => firstPricedPairing getPrices rest
    | some currentPositionPrices => some (pair, currentPositionPrices)

/-- Model of `ArbitrageDetector.handleNewOpportunity`: duplicate-symbol check over the
open positions, free-slot check (`canOpenNewPosition()`), then — when smart
close is enabled — the replacement loop; otherwise the `NO_FREE_SLOTS` skip. -/
def handleNewOpportunity (cfg : Config) (openPositions : List (String × PositionPair))
    (canOpenNewPosition : Bool) (getPrices : String → Option CurrentPrices)
    (opportunity : ArbitrageOpportunity) : List LedgerEffect :=
  if openPositions.any (fun p => p.2.symbol == opportunity.symbol) then []
  else if canOpenNewPosition then [.openPositionPair opportunity]
  else if cfg.trading.closeOnNewOpportunity then
    replacementLoop cfg getPrices opportunity openPositions
  else
    [.recordSkippedOpportunity opportunity .NO_FREE_SLOTS none]

/-! ### Price-update dispatch (`src/arbitrage-detector.ts`, `onPriceUpdate`) -/

/-- Model of `ArbitrageDetector.onPriceUpdate`: normalizes the incoming symbol, looks up
the counterpart venue's cached price (MEXC cache keyed in MEXC format, Binance
cache in common format), returns silently if it is absent, otherwise runs
`checkArbitrage`.  The returned pair is the emitted opportunity (if any) and
the ledger effects produced by `handleNewOpportunity` (run when
`config.trading.enabled`). -/
def onPriceUpdate (cfg : Config) (binanceGetPrice mexcGetPrice : String → Option TickerPrice)
    (openPositions : List (String × PositionPair)) (canOpenNewPosition : Bool)
    (getPrices : String → Option CurrentPrices) (price : TickerPrice) (now : ℤ) :
    Option ArbitrageOpportunity × List LedgerEffect :=
  let normalizedSymbol := toCommonFormat price.symbol
  let otherPrice :=
    if price.exchange = .binance then mexcGetPrice (toMexcFormat normalizedSymbol)
    else binanceGetPrice normalizedSymbol
  match otherPrice with
  | none => (none, [])
  | some other =>
    match checkArbitrage cfg price other normalizedSymbol now with
    | none => (none, [])
    | some opportunity =>
      (some opportunity,
        if cfg.trading.enabled then
          handleNewOpportunity cfg openPositions canOpenNewPosition getPrices opportunity
        else [])

/-! ### Connection health monitor (`src/utils/websocket-monitor.ts`) -/

/-- A downtime record, from `WebSocketDowntime`. -/
structure WebSocketDowntime where
  exchange : ExchangeName
  disconnectTime : ℤ
  reconnectTime : Option ℤ
  durationMs : Option ℤ
  reason : String
deriving DecidableEq, Repr

/-- The monitor state: the archived downtimes (in push order) and the per-venue
`currentDowntime` map. -/
structure WebSocketMonitor where
  downtimes : List WebSocketDowntime
  currentDowntime : ExchangeName → Option WebSocketDowntime

/-- The freshly constructed monitor (both fields empty). -/
def WebSocketMonitor.initial : WebSocketMonitor :=
  { downtimes := [], currentDowntime := fun _ => none }

/-- Model of `WebSocketMonitor.recordDisconnect`: builds a fresh open record and stores
it under the venue key (`this.currentDowntime.set(exchange, downtime)`),
unconditionally. `Date.now()` is passed in as `now`. -/
def recordDisconnect (m : WebSocketMonitor) (exchange : ExchangeName) (reason : String)
    (now : ℤ) : WebSocketMonitor :=
  let downtime : WebSocketDowntime :=
    { exchange := exchange, disconnectTime := now, reconnectTime := none,
      durationMs := none, reason := reason }
  { m with currentDowntime := fun e => if e = exchange then some downtime else m.currentDowntime e }

/-- Model of `WebSocketMonitor.recordReconnect`: if an open record exists for the venue,
fills in `reconnectTime` and `durationMs = now - disconnectTime`, pushes it to
the archive and clears the venue key; otherwise does nothing. -/
def recordReconnect (m : WebSocketMonitor) (exchange : ExchangeName) (now : ℤ) :
    WebSocketMonitor :=
  match m.currentDowntime exchange with
  | none => m
  | some downtime =>
    { downtimes := m.downtimes ++
        [{ downtime with reconnectTime := some now, durationMs := some (now - downtime.disconnectTime) }],
      currentDowntime := fun e => if e = exchange then none else m.currentDowntime e }

/-- Model of `WebSocketMonitor.getDowntimes`. -/
def getDowntimes (m : WebSocketMonitor) : List WebSocketDowntime :=
  m.downtimes

/-- One call into the monitor, with its `Date.now()` timestamp made explicit. -/
inductive WSEvent
  | disconnect (exchange : ExchangeName) (reason : String) (time : ℤ)
  | reconnect (exchange : ExchangeName) (time : ℤ)
deriving DecidableEq, Repr

/-- Apply one monitor call. -/
def applyWSEvent (m : WebSocketMonitor) : WSEvent → WebSocketMonitor
  | .disconnect exchange reason time => recordDisconnect m exchange reason time
  | .reconnect exchange time => recordReconnect m exchange time

/-- Apply a sequence of monitor calls in order. -/
def runWSEvents (m : WebSocketMonitor) : List WSEvent → WebSocketMonitor
  | [] => m
  | e :: rest => runWSEvents (applyWSEvent m e) rest

/-- The number of `recordDisconnect` calls for a venue in an event sequence. -/
def countDisconnects (v : ExchangeName) : List WSEvent → Nat
  | [] => 0
  | .disconnect exchange _ _ :: rest =>
    (if exchange = v then 1 else 0) + countDisconnects v rest
  | .reconnect _ _ :: rest => countDisconnects v rest

/-- Event sequences on venue `v` in which every disconnect is immediately
followed by its matching reconnect. -/
inductive WellPaired (v : ExchangeName) : List WSEvent → Prop
  | nil : WellPaired v []
  | pair (reason : String) (t1 t2 : ℤ) (rest : List WSEvent) :
      WellPaired v rest →
      WellPaired v (.disconnect v reason t1 :: .reconnect v t2 :: rest)

/-! ### Lemmas about `replaceFirst` -/

/-- Skipping a block of characters that cannot start a match of a
single-character pattern. -/
theorem replaceFirst_append_not_mem (a : Char) (rep t : List Char) :
    ∀ base : List Char, a ∉ base →
      replaceFirst [a] rep (base ++ t) = base ++ replaceFirst [a] rep t := by
  intro base
  induction base with
  | nil => intro _; rfl
  | cons c rest ih =>
    intro h
    have hca : a ≠ c := fun hac => h (by simp [hac])
    have hnp : ¬ ([a] <+: c :: (rest ++ t)) := by
      rw [List.cons_prefix_cons]
      rintro ⟨h1, -⟩
      exact hca h1
    rw [List.cons_append]
    simp only [replaceFirst, List.append_eq]
    rw [if_neg hnp, ih (fun hm => h (List.mem_cons_of_mem _ hm)), List.cons_append]

/-- A string not containing the single-character pattern is left unchanged. -/
theorem replaceFirst_eq_self_not_mem (a : Char) (rep : List Char) :
    ∀ s : List Char, a ∉ s → replaceFirst [a] rep s = s := by
  intro s
  induction s with
  | nil => intro _; rfl
  | cons c rest ih =>
    intro h
    have hca : a ≠ c := fun hac => h (by simp [hac])
    have hnp : ¬ ([a] <+: c :: rest) := by
      rw [List.cons_prefix_cons]
      rintro ⟨h1, -⟩
      exact hca h1
    simp only [replaceFirst, if_neg hnp]
    rw [ih (fun hm => h (List.mem_cons_of_mem _ hm))]

/-- Appending `"USDT"` to a nonempty string cannot create a `"USDT"` match
that straddles the boundary: a match starting at the head of `c :: rest`
inside `(c :: rest) ++ "USDT"` is already a match inside `c :: rest`. -/
theorem usdt_no_straddle (c : Char) (rest : List Char)
    (h : usdtL <+: (c :: rest) ++ usdtL) : usdtL <+: (c :: rest) := by
  match rest with
  | [] =>
    rw [usdtL, List.cons_append, List.cons_prefix_cons] at h
    rw [List.nil_append, List.cons_prefix_cons] at h
    exact absurd h.2.1 (by decide)
  | [d] =>
    rw [usdtL, List.cons_append, List.cons_prefix_cons, List.cons_append,
      List.cons_prefix_cons, List.nil_append, List.cons_prefix_cons] at h
    exact absurd h.2.2.1 (by decide)
  | [d, e] =>
    rw [usdtL, List.cons_append, List.cons_prefix_cons, List.cons_append,
      List.cons_prefix_cons, List.cons_append, List.cons_prefix_cons,
      List.nil_append, List.cons_prefix_cons] at h
    exact absurd h.2.2.2.1 (by decide)
  | d :: e :: f :: r4 =>
    rw [usdtL, List.cons_append, List.cons_prefix_cons, List.cons_append,
      List.cons_prefix_cons, List.cons_append, List.cons_prefix_cons,
      List.cons_append, List.cons_prefix_cons] at h
    obtain ⟨rfl, rfl, rfl, rfl, -⟩ := h
    exact ⟨r4, rfl⟩

/-- Replacing the first `"USDT"` in `base ++ "USDT"` when `base` itself
contains no `"USDT"`: only the final block matches. -/
theorem replaceFirst_usdt_append (rep : List Char) :
    ∀ base : List Char, ¬ usdtL <:+: base →
      replaceFirst usdtL rep (base ++ usdtL) = base ++ rep := by
  intro base
  induction base with
  | nil =>
    intro _
    simp [usdtL, replaceFirst, List.prefix_refl]
  | cons c rest ih =>
    intro hni
    have hnp : ¬ (usdtL <+: c :: (rest ++ usdtL)) := fun hp =>
      hni (usdt_no_straddle c rest (by rwa [List.cons_append])).isInfix
    rw [List.cons_append]
    simp only [replaceFirst, List.append_eq]
    rw [if_neg hnp, ih (fun hm => hni (List.infix_cons hm)), List.cons_append]

/-- The tracked MEXC-native instrument universe: USDT-margined perpetual
symbols `BASE_USDT`, whose base part contains neither an underscore nor the
letters `USDT`. -/
def isTrackedMexcSymbol (s : String) : Prop :=
  ∃ base : List Char, s.data = base ++ ('_' :: usdtL) ∧ '_' ∉ base ∧ ¬ usdtL <:+: base

/-! ### Lemmas about the connection health monitor -/

/-- A disconnect immediately followed by a reconnect archives exactly one
record, with the duration computed from the two timestamps. -/
theorem recordReconnect_recordDisconnect_downtimes (m : WebSocketMonitor)
    (v : ExchangeName) (reason : String) (t1 t2 : ℤ) :
    (recordReconnect (recordDisconnect m v reason t1) v t2).downtimes
      = m.downtimes ++
        [{ exchange := v, disconnectTime := t1, reconnectTime := some t2,
           durationMs := some (t2 - t1), reason := reason }] := by
  simp [recordDisconnect, recordReconnect]

/-- Archive length after a well-paired event sequence, from any starting
state: one archived record per disconnect/reconnect pair. -/
theorem runWSEvents_wellPaired_length (v : ExchangeName) (evs : List WSEvent)
    (h : WellPaired v evs) :
    ∀ m : WebSocketMonitor,
      (runWSEvents m evs).downtimes.length = m.downtimes.length + countDisconnects v evs := by
  induction h with
  | nil => intro m; simp [runWSEvents, countDisconnects]
  | pair reason t1 t2 rest hrest ih =>
    intro m
    simp only [runWSEvents, applyWSEvent]
    rw [ih]
    have hlen := congrArg List.length
      (recordReconnect_recordDisconnect_downtimes m v reason t1 t2)
    simp only [List.length_append, List.length_cons, List.length_nil] at hlen
    rw [hlen]
    simp [countDisconnects]
    omega

/-- Every archived record carries a `reconnectTime` and the duration
`reconnectTime - disconnectTime`, whatever the event sequence was. -/
theorem runWSEvents_durations (evs : List WSEvent) :
    ∀ m : WebSocketMonitor,
      (∀ d ∈ m.downtimes, ∃ rt, d.reconnectTime = some rt ∧
        d.durationMs = some (rt - d.disconnectTime)) →
      ∀ d ∈ (runWSEvents m evs).downtimes, ∃ rt, d.reconnectTime = some rt ∧
        d.durationMs = some (rt - d.disconnectTime) := by
  induction evs with
  | nil => intro m hm; simpa [runWSEvents] using hm
  | cons e rest ih =>
    intro m hm
    simp only [runWSEvents]
    apply ih
    intro d hd
    cases e with
    | disconnect ex reason t =>
      exact hm d (by simpa [applyWSEvent, recordDisconnect] using hd)
    | reconnect ex t =>
      cases hcur : m.currentDowntime ex with
      | none =>
        rw [applyWSEvent, recordReconnect, hcur] at hd
        exact hm d hd
      | some dt =>
        rw [applyWSEvent, recordReconnect, hcur] at hd
        simp only [List.mem_append, List.mem_singleton] at hd
        rcases hd with hd | hd
        · exact hm d hd
        · subst hd; exact ⟨t, rfl, rfl⟩

/-! ### Lemmas about opportunity construction -/

/-- An emitted opportunity always clears the gross-spread filter. -/
theorem mkOpportunity_minSpread (cfg : Config) (symbol : String)
    (buyExchange sellExchange : ExchangeName) (buyPrice sellPrice : ℚ) (now : ℤ)
    (opp : ArbitrageOpportunity)
    (h : mkOpportunity cfg symbol buyExchange sellExchange buyPrice sellPrice now = some opp) :
    cfg.arbitrage.minSpreadPercent ≤ opp.spreadPercent := by
  simp only [mkOpportunity] at h
  split at h
  · exact absurd h (by simp)
  · next hlt =>
    obtain rfl := (Option.some.inj h).symm
    exact not_lt.mp hlt

/-- The cost model is strictly cost-negative: with positive prices, positive
taker fees and positive slippage, the net profit percent of any emitted
opportunity is strictly below its gross spread percent. -/
theorem mkOpportunity_profit_lt_spread (cfg : Config) (symbol : String)
    (buyExchange sellExchange : ExchangeName) (buyPrice sellPrice : ℚ) (now : ℤ)
    (opp : ArbitrageOpportunity)
    (hb : 0 < buyPrice) (hs : 0 < sellPrice)
    (hf1 : 0 < (cfg.fees.forExchange buyExchange).taker)
    (hf2 : 0 < (cfg.fees.forExchange sellExchange).taker)
    (hsl : 0 < cfg.slippage.percent)
    (h : mkOpportunity cfg symbol buyExchange sellExchange buyPrice sellPrice now = some opp) :
    opp.profitPercent < opp.spreadPercent := by
  simp only [mkOpportunity] at h
  split at h
  · exact absurd h (by simp)
  · obtain rfl := (Option.some.inj h).symm
    show (sellPrice * (1 - (cfg.fees.forExchange sellExchange).taker / 100 - cfg.slippage.percent / 100)
        - buyPrice * (1 + (cfg.fees.forExchange buyExchange).taker / 100 + cfg.slippage.percent / 100))
        / (buyPrice * (1 + (cfg.fees.forExchange buyExchange).taker / 100 + cfg.slippage.percent / 100)) * 100
      < (sellPrice - buyPrice) / buyPrice * 100
    set f1 := (cfg.fees.forExchange buyExchange).taker with hf1def
    set f2 := (cfg.fees.forExchange sellExchange).taker with hf2def
    set sl := cfg.slippage.percent with hsldef
    have hden : 0 < buyPrice * (1 + f1 / 100 + sl / 100) := by positivity
    rw [div_mul_eq_mul_div, div_mul_eq_mul_div, div_lt_div_iff₀ hden hb]
    nlinarith [mul_pos hb hs, mul_pos (mul_pos hb hs) hf1,
      mul_pos (mul_pos hb hs) hf2, mul_pos (mul_pos hb hs) hsl]

/-! ### Lemmas about the replacement loop -/

/-- When every open pairing whose current prices are available sits below the
notify threshold, the replacement loop produces exactly one skip record and
nothing else — `POSITION_NOT_PROFITABLE` carrying the first priced pairing's
recomputed profit, `NO_FREE_SLOTS` exactly when no pairing's prices are
available. -/
theorem replacementLoop_all_below (cfg : Config) (getPrices : String → Option CurrentPrices)
    (opportunity : ArbitrageOpportunity) :
    ∀ openPositions : List (String × PositionPair),
      (∀ pairId pair currentPrices, (pairId, pair) ∈ openPositions →
        getPrices pair.symbol = some currentPrices →
        currentAvgPnl cfg pair currentPrices < cfg.notifications.minSpreadToNotify) →
      replacementLoop cfg getPrices opportunity openPositions
        = match firstPricedPairing getPrices openPositions with
          | none => [.recordSkippedOpportunity opportunity .NO_FREE_SLOTS none]
          | some (pair, currentPrices) =>
            [.recordSkippedOpportunity opportunity .POSITION_NOT_PROFITABLE
              (some (currentAvgPnl cfg pair currentPrices))] := by
  intro l
  induction l with
  | nil => exact fun _ => rfl
  | cons hd rest ih =>
    intro hb
    obtain ⟨pairId, pair⟩ := hd
    cases hg : getPrices pair.symbol with
    | none =>
      simp only [replacementLoop, firstPricedPairing, hg]
      exact ih fun pid p cp hm hgp => hb pid p cp (List.mem_cons_of_mem _ hm) hgp
    | some cp =>
      have hlt := hb pairId pair cp (List.mem_cons_self _ _) hg
      simp only [replacementLoop, firstPricedPairing, hg, if_neg (not_le.mpr hlt)]

/-- First-fit replacement: with every earlier pairing either lacking current
prices or at/above the threshold but not beaten by the new opportunity, the
first pairing that clears the threshold and is beaten triggers exactly one
close of that pairing followed by one open, and the loop stops there. -/
theorem replacementLoop_first_fit (cfg : Config) (getPrices : String → Option CurrentPrices)
    (opportunity : ArbitrageOpportunity) (pairId : String) (pair : PositionPair)
    (currentPositionPrices : CurrentPrices) (rest : List (String × PositionPair))
    (hcur : getPrices pair.symbol = some currentPositionPrices)
    (hthr : cfg.notifications.minSpreadToNotify ≤ currentAvgPnl cfg pair currentPositionPrices)
    (hbetter : currentAvgPnl cfg pair currentPositionPrices < opportunity.profitPercent) :
    ∀ front : List (String × PositionPair),
      (∀ pid q, (pid, q) ∈ front →
        getPrices q.symbol = none ∨
        ∃ cp, getPrices q.symbol = some cp ∧
          cfg.notifications.minSpreadToNotify ≤ currentAvgPnl cfg q cp ∧
          opportunity.profitPercent ≤ currentAvgPnl cfg q cp) →
      replacementLoop cfg getPrices opportunity (front ++ (pairId, pair) :: rest)
        = [.closePositionManually pairId currentPositionPrices.buyPrice
              currentPositionPrices.sellPrice,
            .openPositionPair opportunity] := by
  intro front
  induction front with
  | nil =>
    intro _
    simp only [List.nil_append, replacementLoop, hcur, if_pos hthr, if_pos hbetter]
  | cons hd tl ih =>
    intro hf
    obtain ⟨pid0, q0⟩ := hd
    rw [List.cons_append]
    rcases hf pid0 q0 (List.mem_cons_self _ _) with hg | ⟨cp0, hg, hthr0, hle0⟩
    · simp only [replacementLoop, hg]
      exact ih fun pid q hm => hf pid q (List.mem_cons_of_mem _ hm)
    · simp only [replacementLoop, hg, if_pos hthr0, if_neg (not_lt.mpr hle0)]
      exact ih fun pid q hm => hf pid q (List.mem_cons_of_mem _ hm)

/-! ### Concrete fixtures used by witnesses and counterexamples -/

/-- A configuration with the spec's running numbers: minimum spread 0.5 %,
taker fee 0.08 % on each venue, slippage 0.1 %, notify threshold 0.3 %. -/
def cfgEx : Config :=
  { arbitrage := { minSpreadPercent := 1/2 },
    notifications := { minSpreadToNotify := 3/10 },
    fees := { binance := { taker := 2/25 }, mexc := { taker := 2/25 } },
    slippage := { percent := 1/10 },
    trading := { enabled := true, closeOnNewOpportunity := true } }

/-- A Binance tick with ask 100. -/
def tickBinanceEx : TickerPrice :=
  { symbol := "BTCUSDT", price := 100, bid := 999/10, ask := 100,
    timestamp := 0, exchange := .binance }

/-- A MEXC tick with bid 100.5. -/
def tickMexcEx : TickerPrice :=
  { symbol := "BTC_USDT", price := 201/2, bid := 201/2, ask := 101,
    timestamp := 0, exchange := .mexc }

/-- The opportunity `checkArbitrage` computes from the two ticks above under
`cfgEx`: gross spread 0.5 %, net profit 1391/10018 ≈ 0.1389 %. -/
def oppEx : ArbitrageOpportunity :=
  { symbol := "BTCUSDT", buyExchange := .binance, sellExchange := .mexc,
    buyPrice := 100, sellPrice := 201/2, spreadPercent := 1/2,
    profitPercent := 1391/10018, timestamp := 0 }

/-- Evaluation of `checkArbitrage` on the fixture ticks. -/
theorem checkArbitrage_eval_ex :
    checkArbitrage cfgEx tickBinanceEx tickMexcEx "BTCUSDT" 0 = some oppEx := by
  norm_num [checkArbitrage, mkOpportunity, Fees.forExchange, cfgEx, tickBinanceEx,
    tickMexcEx, oppEx]



/-! ### Claims -/

/-- C3: for every instrument in the tracked universe, converting a
venue-native symbol to canonical form and back yields the original:
`MexcFutures.toMexcFormat (MexcFutures.toCommonFormat s) = s` for every
tracked MEXC-native symbol `s`. -/
theorem mexcSymbol_roundtrip (s : String) (h : isTrackedMexcSymbol s) :
    toMexcFormat (toCommonFormat s) = s := by
  obtain ⟨base, hdata, hu, hni⟩ := h
  have h1 : replaceFirst ['_'] [] s.data = base ++ usdtL := by
    rw [hdata, replaceFirst_append_not_mem _ _ _ _ hu]
    congr 1
  show (⟨replaceFirst usdtL ('_' :: usdtL) (replaceFirst ['_'] [] s.data)⟩ : String) = s
  rw [h1, replaceFirst_usdt_append _ base hni]
  cases s with
  | mk d => exact congrArg String.mk hdata.symm

/-- C3 witness: the round trip on the concrete tracked symbol `BTC_USDT`. -/
theorem mexcSymbol_roundtrip_witness :
    isTrackedMexcSymbol "BTC_USDT" ∧
      toMexcFormat (toCommonFormat "BTC_USDT") = "BTC_USDT" := by
  have htr : isTrackedMexcSymbol "BTC_USDT" :=
    ⟨['B', 'T', 'C'], by decide, by decide, by decide⟩
  exact ⟨htr, mexcSymbol_roundtrip _ htr⟩

/-- C10: a string containing no underscore (in particular every
Binance-format symbol) is left unchanged by `toCommonFormat`, so Binance
ticks keep their symbol as the canonical join key. -/
theorem toCommonFormat_no_underscore (s : String) (h : ('_' : Char) ∉ s.data) :
    toCommonFormat s = s := by
  cases s with
  | mk d => exact congrArg String.mk (replaceFirst_eq_self_not_mem _ _ _ h)

/-- C10 witness: `toCommonFormat` fixes the Binance symbol `BTCUSDT`. -/
theorem toCommonFormat_no_underscore_witness :
    ('_' : Char) ∉ "BTCUSDT".data ∧ toCommonFormat "BTCUSDT" = "BTCUSDT" :=
  ⟨by decide, toCommonFormat_no_underscore _ (by decide)⟩

/-- C9: if the counterpart venue's cache has no entry for the instrument,
`onPriceUpdate` returns silently — no opportunity, no ledger or telemetry
effect. -/
theorem onPriceUpdate_no_counterpart (cfg : Config)
    (binanceGetPrice mexcGetPrice : String → Option TickerPrice)
    (openPositions : List (String × PositionPair)) (canOpenNewPosition : Bool)
    (getPrices : String → Option CurrentPrices) (price : TickerPrice) (now : ℤ)
    (h : (if price.exchange = .binance then
        mexcGetPrice (toMexcFormat (toCommonFormat price.symbol))
      else binanceGetPrice (toCommonFormat price.symbol)) = none) :
    onPriceUpdate cfg binanceGetPrice mexcGetPrice openPositions canOpenNewPosition
      getPrices price now = (none, []) := by
  simp only [onPriceUpdate, h]

/-- C9 witness: a Binance tick arriving while the MEXC cache is empty. -/
theorem onPriceUpdate_no_counterpart_witness :
    onPriceUpdate cfgEx (fun _ => none) (fun _ => none) [] true (fun _ => none)
      tickBinanceEx 0 = (none, []) :=
  onPriceUpdate_no_counterpart cfgEx (fun _ => none) (fun _ => none) [] true
    (fun _ => none) tickBinanceEx 0 (by simp)

/-- C8: an opportunity whose instrument already has an open pairing is
discarded outright: `handleNewOpportunity` performs no ledger call at all —
no open, no close, and no skip record. -/
theorem handleNewOpportunity_duplicate (cfg : Config)
    (openPositions : List (String × PositionPair)) (canOpenNewPosition : Bool)
    (getPrices : String → Option CurrentPrices) (opportunity : ArbitrageOpportunity)
    (h : openPositions.any (fun p => p.2.symbol == opportunity.symbol) = true) :
    handleNewOpportunity cfg openPositions canOpenNewPosition getPrices opportunity = [] := by
  simp only [handleNewOpportunity, h, if_true]

/-- C8 witness: an opportunity on `BTCUSDT` while a `BTCUSDT` pairing is open. -/
theorem handleNewOpportunity_duplicate_witness :
    handleNewOpportunity cfgEx
      [("P1", { symbol := "BTCUSDT",
                longPosition := { exchange := .binance, entryPrice := 100 },
                shortPosition := { exchange := .mexc, entryPrice := 101 } })]
      false (fun _ => none) oppEx = [] :=
  handleNewOpportunity_duplicate cfgEx _ false (fun _ => none) oppEx (by decide)

/-- The monitor state after one disconnect on Binance (used to probe a second
disconnect while a record is already open). -/
def mC7 : WebSocketMonitor :=
  recordDisconnect WebSocketMonitor.initial .binance "r1" 1

/-- C7 counterexample: a second `recordDisconnect` while a record is open is
not ignored — the open record changes (new `disconnectTime` and `reason`). -/
theorem recordDisconnect_not_ignored :
    (recordDisconnect mC7 .binance "r2" 2).currentDowntime .binance
      ≠ mC7.currentDowntime .binance := by
  decide

/-- C7 (amended): at most one open downtime record is kept per venue, and a
second `recordDisconnect` while one is open replaces it with a fresh record
carrying the new `disconnectTime` and `reason`; the archive and the other
venue's entry are untouched, and no archive entry is created. -/
theorem recordDisconnect_overwrites (m : WebSocketMonitor) (exchange : ExchangeName)
    (reason : String) (now : ℤ) :
    (recordDisconnect m exchange reason now).currentDowntime exchange
        = some { exchange := exchange, disconnectTime := now, reconnectTime := none,
                 durationMs := none, reason := reason } ∧
      (recordDisconnect m exchange reason now).downtimes = m.downtimes ∧
      ∀ e, e ≠ exchange →
        (recordDisconnect m exchange reason now).currentDowntime e = m.currentDowntime e :=
  ⟨by simp [recordDisconnect], rfl, fun e he => by simp [recordDisconnect, he]⟩

/-- C7 witness: the amended statement at the concrete overwrite scenario. -/
theorem recordDisconnect_overwrites_witness :
    (recordDisconnect mC7 .binance "r2" 2).currentDowntime .binance
        = some { exchange := .binance, disconnectTime := 2, reconnectTime := none,
                 durationMs := none, reason := "r2" } ∧
      (recordDisconnect mC7 .binance "r2" 2).downtimes = mC7.downtimes ∧
      (recordDisconnect mC7 .binance "r2" 2).currentDowntime .mexc
        = mC7.currentDowntime .mexc := by
  have h := recordDisconnect_overwrites mC7 .binance "r2" 2
  exact ⟨h.1, h.2.1, h.2.2 .mexc (by decide)⟩

/-- A lone disconnect with no matching reconnect. -/
def evsLoneDisconnect : List WSEvent :=
  [.disconnect .binance "connection lost" 5]

/-- C4 counterexample: for a sequence with one disconnect and no reconnect,
the archived downtime list is empty, so its length differs from the number of
`recordDisconnect` calls. -/
theorem downtime_pairing_fails_unpaired :
    (getDowntimes (runWSEvents WebSocketMonitor.initial evsLoneDisconnect)).length
      ≠ countDisconnects .binance evsLoneDisconnect := by
  decide

/-- C4 (amended): for sequences on one venue in which every disconnect is
followed by its reconnect before the next disconnect, the archived downtime
list length equals the number of disconnects; and — for any sequence — every
archived entry's `durationMs` equals its `reconnectTime` minus its
`disconnectTime`. -/
theorem downtime_pairing (v : ExchangeName) (evs : List WSEvent) :
    (WellPaired v evs →
        (getDowntimes (runWSEvents WebSocketMonitor.initial evs)).length
          = countDisconnects v evs) ∧
      ∀ d ∈ getDowntimes (runWSEvents WebSocketMonitor.initial evs),
        ∃ rt, d.reconnectTime = some rt ∧ d.durationMs = some (rt - d.disconnectTime) := by
  constructor
  · intro h
    rw [getDowntimes, runWSEvents_wellPaired_length v evs h]
    simp [WebSocketMonitor.initial]
  · exact runWSEvents_durations evs _ (by simp [WebSocketMonitor.initial])

/-- A disconnect/reconnect pair on Binance. -/
def evsPairEx : List WSEvent :=
  [.disconnect .binance "ping timeout" 3, .reconnect .binance 9]

/-- C4 witness: the amended statement at a concrete well-paired sequence. -/
theorem downtime_pairing_witness :
    (getDowntimes (runWSEvents WebSocketMonitor.initial evsPairEx)).length
        = countDisconnects .binance evsPairEx ∧
      ∀ d ∈ getDowntimes (runWSEvents WebSocketMonitor.initial evsPairEx),
        ∃ rt, d.reconnectTime = some rt ∧ d.durationMs = some (rt - d.disconnectTime) := by
  have h := downtime_pairing .binance evsPairEx
  exact ⟨h.1 (WellPaired.pair "ping timeout" 3 9 [] WellPaired.nil), h.2⟩

/-- C1 counterexample: `checkArbitrage` emits an opportunity whose net profit
percent (≈ 0.139 %) is strictly below the configured minimum threshold
(0.5 %) — the threshold filter runs on the gross spread, not on net profit. -/
theorem opportunity_below_net_threshold_emitted :
    checkArbitrage cfgEx tickBinanceEx tickMexcEx "BTCUSDT" 0 = some oppEx ∧
      oppEx.profitPercent < cfgEx.arbitrage.minSpreadPercent := by
  refine ⟨checkArbitrage_eval_ex, ?_⟩
  norm_num [oppEx, cfgEx]

/-- C1 (amended): the threshold filter of `checkArbitrage` compares the gross
spread percent — not the net profit percent — against the configured minimum:
every emitted opportunity has gross spread at or above
`config.arbitrage.minSpreadPercent`, and net profit is not filtered at all. -/
theorem checkArbitrage_spread_filter (cfg : Config) (price1 price2 : TickerPrice)
    (symbol : String) (now : ℤ) (opp : ArbitrageOpportunity)
    (h : checkArbitrage cfg price1 price2 symbol now = some opp) :
    cfg.arbitrage.minSpreadPercent ≤ opp.spreadPercent := by
  rw [checkArbitrage] at h
  split at h
  · exact mkOpportunity_minSpread _ _ _ _ _ _ _ _ h
  · split at h
    · exact mkOpportunity_minSpread _ _ _ _ _ _ _ _ h
    · exact absurd h (by simp)

/-- C1 witness: the gross-spread bound at the fixture emission. -/
theorem checkArbitrage_spread_filter_witness :
    cfgEx.arbitrage.minSpreadPercent ≤ oppEx.spreadPercent :=
  checkArbitrage_spread_filter cfgEx tickBinanceEx tickMexcEx "BTCUSDT" 0 oppEx
    checkArbitrage_eval_ex

/-- C5: the cost model is always strictly cost-negative — for every
opportunity emitted by `checkArbitrage` under positive prices, positive taker
fees on both venues and positive slippage, the net profit percent is strictly
less than the gross spread percent. -/
theorem checkArbitrage_cost_negative (cfg : Config) (price1 price2 : TickerPrice)
    (symbol : String) (now : ℤ) (opp : ArbitrageOpportunity)
    (h1 : 0 < price1.ask) (h2 : 0 < price1.bid) (h3 : 0 < price2.ask) (h4 : 0 < price2.bid)
    (hfb : 0 < cfg.fees.binance.taker) (hfm : 0 < cfg.fees.mexc.taker)
    (hsl : 0 < cfg.slippage.percent)
    (h : checkArbitrage cfg price1 price2 symbol now = some opp) :
    opp.profitPercent < opp.spreadPercent := by
  have hfe : ∀ e, 0 < (cfg.fees.forExchange e).taker := by
    intro e
    cases e
    · exact hfb
    · exact hfm
  rw [checkArbitrage] at h
  split at h
  · exact mkOpportunity_profit_lt_spread _ _ _ _ _ _ _ _ h1 h4 (hfe _) (hfe _) hsl h
  · split at h
    · exact mkOpportunity_profit_lt_spread _ _ _ _ _ _ _ _ h3 h2 (hfe _) (hfe _) hsl h
    · exact absurd h (by simp)

/-- C5 witness: at buy 100, sell 100.5 (gross spread 0.5 %), taker fee 0.08 %
per venue and slippage 0.1 %, the emitted net profit percent is strictly below
the gross spread percent. -/
theorem checkArbitrage_cost_negative_witness :
    oppEx.profitPercent < oppEx.spreadPercent :=
  checkArbitrage_cost_negative cfgEx tickBinanceEx tickMexcEx "BTCUSDT" 0 oppEx
    (by norm_num [tickBinanceEx]) (by norm_num [tickBinanceEx])
    (by norm_num [tickMexcEx]) (by norm_num [tickMexcEx])
    (by norm_num [cfgEx]) (by norm_num [cfgEx]) (by norm_num [cfgEx])
    checkArbitrage_eval_ex

/-- An open pairing on `ETHUSDT`: long Binance entered at 100, short MEXC
entered at 100.2. -/
def pairEx : PositionPair :=
  { symbol := "ETHUSDT",
    longPosition := { exchange := .binance, entryPrice := 100 },
    shortPosition := { exchange := .mexc, entryPrice := 501/5 } }

/-- Current market prices for the open `ETHUSDT` pairing: buy 100,
sell 100.1 — its recomputed profit is ≈ −0.31 %, below the 0.3 % notify
threshold of `cfgEx`. -/
def cpEx : CurrentPrices := { buyPrice := 100, sellPrice := 1001/10 }

/-- Price getter serving the open `ETHUSDT` pairing. -/
def getPricesEx : String → Option CurrentPrices :=
  fun s => if s = "ETHUSDT" then some cpEx else none

/-- C2 counterexample: slots full, smart close enabled, the only open
pairing's recomputed profit below the notify threshold — the new opportunity
is skipped with reason `POSITION_NOT_PROFITABLE`, not `NO_FREE_SLOTS`. -/
theorem full_slots_below_threshold_reason :
    currentAvgPnl cfgEx pairEx cpEx < cfgEx.notifications.minSpreadToNotify ∧
      getPricesEx "ETHUSDT" = some cpEx ∧
      skipReasons (handleNewOpportunity cfgEx [("P1", pairEx)] false getPricesEx oppEx)
        = [SkipReason.POSITION_NOT_PROFITABLE] := by
  refine ⟨?_, rfl, ?_⟩
  · norm_num [currentAvgPnl, Fees.forExchange, cfgEx, pairEx, cpEx]
  · norm_num [handleNewOpportunity, replacementLoop, skipReasons, currentAvgPnl,
      Fees.forExchange, cfgEx, pairEx, cpEx, getPricesEx, oppEx]
    decide

/-- C2 (amended): when slots are full, smart close is enabled, no open pairing
shares the opportunity's symbol, and every open pairing's recomputed current
profit is below the notify threshold, the engine records exactly one skip and
performs no ledger mutation (no close, no open) — the reason is
`POSITION_NOT_PROFITABLE`, carrying the recomputed profit of the first pairing
whose current prices are available, and it is `NO_FREE_SLOTS` exactly when no
pairing's current prices are available. -/
theorem handleNewOpportunity_all_below (cfg : Config)
    (openPositions : List (String × PositionPair))
    (getPrices : String → Option CurrentPrices) (opportunity : ArbitrageOpportunity)
    (hdup : openPositions.any (fun p => p.2.symbol == opportunity.symbol) = false)
    (hclose : cfg.trading.closeOnNewOpportunity = true)
    (hbelow : ∀ pairId pair currentPrices, (pairId, pair) ∈ openPositions →
      getPrices pair.symbol = some currentPrices →
      currentAvgPnl cfg pair currentPrices < cfg.notifications.minSpreadToNotify) :
    handleNewOpportunity cfg openPositions false getPrices opportunity
      = match firstPricedPairing getPrices openPositions with
        | none => [LedgerEffect.recordSkippedOpportunity opportunity .NO_FREE_SLOTS none]
        | some (pair, currentPrices) =>
          [LedgerEffect.recordSkippedOpportunity opportunity .POSITION_NOT_PROFITABLE
            (some (currentAvgPnl cfg pair currentPrices))] := by
  have hloop := replacementLoop_all_below cfg getPrices opportunity openPositions hbelow
  simp only [handleNewOpportunity, hdup, hclose, Bool.false_eq_true, if_false,
    if_true, ite_false, ite_true]
  exact hloop

/-- C2 witness: the amended statement at the concrete full-slot scenario —
the single `ETHUSDT` pairing is the first priced pairing, so the skip reason
is `POSITION_NOT_PROFITABLE` with that pairing's recomputed profit. -/
theorem handleNewOpportunity_all_below_witness :
    handleNewOpportunity cfgEx [("P1", pairEx)] false getPricesEx oppEx
      = [LedgerEffect.recordSkippedOpportunity oppEx SkipReason.POSITION_NOT_PROFITABLE
          (some (currentAvgPnl cfgEx pairEx cpEx))] := by
  have h := handleNewOpportunity_all_below cfgEx [("P1", pairEx)] getPricesEx oppEx
    (by decide) rfl ?_
  · rw [h]
    norm_num [firstPricedPairing, getPricesEx, pairEx]
  · intro pairId pair currentPrices hm hg
    simp only [List.mem_singleton, Prod.mk.injEq] at hm
    obtain ⟨-, rfl⟩ := hm
    simp only [getPricesEx, pairEx] at hg
    norm_num at hg
    subst hg
    norm_num [currentAvgPnl, Fees.forExchange, cfgEx, pairEx, cpEx]

/-- Zero-cost configuration with notify threshold 0.05 % (used to exercise the
replacement branch with easy numbers). -/
def cfgC6 : Config :=
  { arbitrage := { minSpreadPercent := 1/2 },
    notifications := { minSpreadToNotify := 1/20 },
    fees := { binance := { taker := 0 }, mexc := { taker := 0 } },
    slippage := { percent := 0 },
    trading := { enabled := true, closeOnNewOpportunity := true } }

/-- An open `ETHUSDT` pairing with both entries at 100. -/
def pairC6 : PositionPair :=
  { symbol := "ETHUSDT",
    longPosition := { exchange := .binance, entryPrice := 100 },
    shortPosition := { exchange := .mexc, entryPrice := 100 } }

/-- Current prices giving the pairing a profit of exactly 0.1 % under
`cfgC6`. -/
def cpC6 : CurrentPrices := { buyPrice := 502/5, sellPrice := 501/5 }

/-- Price getter serving the open `ETHUSDT` pairing of `pairC6`. -/
def getPricesC6 : String → Option CurrentPrices :=
  fun s => if s = "ETHUSDT" then some cpC6 else none

/-- C6: when slots are full and the first open pairing whose recomputed
current profit is at or above the notify threshold is beaten by the new
opportunity's profit, exactly one close (of that very pairing, at its current
prices) followed by exactly one open occurs, and the replacement loop stops
at that first replacement. -/
theorem handleNewOpportunity_first_fit (cfg : Config)
    (front rest : List (String × PositionPair)) (pairId : String) (pair : PositionPair)
    (currentPositionPrices : CurrentPrices) (getPrices : String → Option CurrentPrices)
    (opportunity : ArbitrageOpportunity)
    (hdup : (front ++ (pairId, pair) :: rest).any
      (fun p => p.2.symbol == opportunity.symbol) = false)
    (hclose : cfg.trading.closeOnNewOpportunity = true)
    (hfront : ∀ pid q, (pid, q) ∈ front →
      getPrices q.symbol = none ∨
      ∃ cp, getPrices q.symbol = some cp ∧
        cfg.notifications.minSpreadToNotify ≤ currentAvgPnl cfg q cp ∧
        opportunity.profitPercent ≤ currentAvgPnl cfg q cp)
    (hcur : getPrices pair.symbol = some currentPositionPrices)
    (hthr : cfg.notifications.minSpreadToNotify
      ≤ currentAvgPnl cfg pair currentPositionPrices)
    (hbetter : currentAvgPnl cfg pair currentPositionPrices < opportunity.profitPercent) :
    handleNewOpportunity cfg (front ++ (pairId, pair) :: rest) false getPrices opportunity
      = [LedgerEffect.closePositionManually pairId currentPositionPrices.buyPrice
            currentPositionPrices.sellPrice,
          LedgerEffect.openPositionPair opportunity] := by
  simp only [handleNewOpportunity, hdup, hclose, Bool.false_eq_true, if_false,
    if_true, ite_false, ite_true]
  exact replacementLoop_first_fit cfg getPrices opportunity pairId pair
    currentPositionPrices rest hcur hthr hbetter front hfront

/-- C6 witness: slots full with one open pairing at 0.1 % current profit
(threshold 0.05 %), replaced by the fixture opportunity at ≈ 0.139 %. -/
theorem handleNewOpportunity_first_fit_witness :
    handleNewOpportunity cfgC6 [("P1", pairC6)] false getPricesC6 oppEx
      = [LedgerEffect.closePositionManually "P1" cpC6.buyPrice cpC6.sellPrice,
          LedgerEffect.openPositionPair oppEx] := by
  have h := handleNewOpportunity_first_fit cfgC6 [] [] "P1" pairC6 cpC6 getPricesC6 oppEx
    (by decide) rfl (by simp)
    (by norm_num [getPricesC6, pairC6])
    (by norm_num [currentAvgPnl, Fees.forExchange, cfgC6, pairC6, cpC6])
    (by norm_num [currentAvgPnl, Fees.forExchange, cfgC6, pairC6, cpC6, oppEx])
  exact h
